import Mathlib

/-!
Shallow embedding of the persistence-and-synchronization layer of the
trading database (`project/database.py`): the unit-of-work session
manager, the ratio-matrix sync protocol, the time-series retention
engine, the trade lifecycle tracker and the event relay.  Stores are
lists of rows, machine timestamps are civil-calendar records, and every
operation is a pure function from the store (plus explicit environment
flags such as gateway connectivity) to an outcome carrying the new
store and the observable event trace.
-/

namespace CryptoDB

/-- Calendar model of the naive `datetime` values stored by the layer
(`datetime.now()` timestamps).  Ordering is chronological, realised by the
injective numeric key below. -/
structure DateTime where
  year : Nat
  month : Nat
  day : Nat
  hour : Nat
  minute : Nat
  second : Nat
deriving DecidableEq

/-- Numeric key that realises chronological order on valid datetimes
(month < 13, day < 32, hour < 24, minute and second < 60). -/
def DateTime.key (dt : DateTime) : Nat :=
  ((((dt.year * 13 + dt.month) * 32 + dt.day) * 24 + dt.hour) * 60 + dt.minute) * 60 + dt.second

/-- Chronological strict comparison of datetimes (the `<` used by the
retention deletes and the `ORDER BY datetime DESC`). -/
def DateTime.ltb (a b : DateTime) : Bool := decide (a.key < b.key)

/-- Gregorian leap-year rule. -/
def isLeap (y : Nat) : Bool := (y % 4 == 0 && y % 100 != 0) || y % 400 == 0

/-- Length of a civil month. -/
def daysInMonth (y m : Nat) : Nat :=
  if m == 2 then (if isLeap y then 29 else 28)
  else if m == 4 || m == 6 || m == 9 || m == 11 then 30 else 31

/-- Ordinal day of the year (strftime %j), 1-based. -/
def DateTime.dayOfYear (dt : DateTime) : Nat :=
  (List.range (dt.month - 1)).foldl (fun a i => a + daysInMonth dt.year (i + 1)) 0 + dt.day

/-- Leap days occurring in years 1..y. -/
def leapsBefore (y : Nat) : Nat := y / 4 - y / 100 + y / 400

/-- Days elapsed since 0001-01-01, which is a Monday in the proleptic
Gregorian calendar. -/
def DateTime.daysFromEpoch (dt : DateTime) : Nat :=
  365 * (dt.year - 1) + leapsBefore (dt.year - 1) + dt.dayOfYear - 1

/-- Monday-based weekday, Monday = 0. -/
def DateTime.weekdayMon (dt : DateTime) : Nat := dt.daysFromEpoch % 7

/-- Week-of-year in the sense of strftime %W as sqlite computes it:
Monday-first weeks, days before the first Monday of the year fall in
week 0. -/
def DateTime.weekW (dt : DateTime) : Nat := (dt.dayOfYear + 6 - dt.weekdayMon) / 7

/-- Semantics of `datetime.now() - relativedelta(days=1)` on naive
datetimes: the date is stepped back one civil day, time fields kept. -/
def DateTime.subDay (dt : DateTime) : DateTime :=
  if dt.day > 1 then { dt with day := dt.day - 1 }
  else if dt.month > 1 then
    { dt with month := dt.month - 1, day := daysInMonth dt.year (dt.month - 1) }
  else { dt with year := dt.year - 1, month := 12, day := 31 }

/-- Semantics of `- relativedelta(months=1)`: dateutil steps the month back
and clamps the day to the target month's length. -/
def DateTime.subMonth (dt : DateTime) : DateTime :=
  if dt.month > 1 then
    { dt with month := dt.month - 1, day := min dt.day (daysInMonth dt.year (dt.month - 1)) }
  else { dt with year := dt.year - 1, month := 12, day := min dt.day 31 }

/-- Semantics of `- relativedelta(years=1)`: the year is stepped back and the
day clamped (Feb 29 becomes Feb 28). -/
def DateTime.subYear (dt : DateTime) : DateTime :=
  { dt with year := dt.year - 1, day := min dt.day (daysInMonth (dt.year - 1) dt.month) }

/-- Row of the `coins` table (the `Coin` model): symbol primary key plus the
enabled flag. -/
structure CoinRow where
  symbol : String
  enabled : Bool
deriving DecidableEq

/-- Modelled from the spec: the `Coin` constructor invoked by `set_coins`
for a symbol absent from the store (the models/coin.py source is not under
src/).  Per the data model an Asset is created enabled when it enters the
tracked-symbol set. -/
def CoinRow.new (s : String) : CoinRow := ⟨s, true⟩

/-- Row of the `pairs` table (the `Pair` model): stable integer identity,
the ordered (from, to) coin symbols, the optional ratio and the enabled
flag. -/
structure PairRow where
  id : Nat
  fromSymbol : String
  toSymbol : String
  ratio : Option Rat
  enabled : Bool
deriving DecidableEq

/-- Modelled from the spec: the `Pair` constructor used by `set_coins`
(models/pair.py is not under src/).  A Pair is created lazily, enabled,
with no ratio recorded yet; its integer identity comes from the store's
autoincrement counter. -/
def PairRow.new (i : Nat) (f t : String) : PairRow := ⟨i, f, t, none, true⟩

/-- Row of the `current_coin_history` table (the `CurrentCoin` model):
an append-only timestamped pointer to the held asset. -/
structure CurrentCoinRow where
  coinId : String
  datetime : DateTime
deriving DecidableEq

/-- Granularity tag of a value sample (the `Interval` enum; `raw` in the
spec is `MINUTELY` in the code). -/
inductive Interval where
  | MINUTELY
  | HOURLY
  | DAILY
  | WEEKLY
deriving DecidableEq

/-- Row of the `coin_value` table (the `CoinValue` model): integer primary
key, asset symbol, balance, the two price quotations, the granularity tag
and the sample timestamp. -/
structure CoinValueRow where
  id : Nat
  coinId : String
  balance : Rat
  usdPrice : Rat
  btcPrice : Rat
  interval : Interval
  datetime : DateTime
deriving DecidableEq

/-- Row of the `scout_history` table (the `ScoutHistory` model). -/
structure ScoutRow where
  pairId : Nat
  ratioDiff : Rat
  targetRatio : Rat
  currentCoinPrice : Rat
  otherCoinPrice : Rat
  datetime : DateTime
deriving DecidableEq

/-- Modelled from the spec: trade lifecycle states (models/trade.py is not
under src/); the spec's state machine is INITIAL, then ORDERED, then the
terminal COMPLETE. -/
inductive TradeState where
  | INITIAL
  | ORDERED
  | COMPLETE
deriving DecidableEq

/-- Modelled from the spec: row of the `trade_history` table (the `Trade`
model, models/trade.py is not under src/): a trade is created with the two
asset symbols and the selling flag, in the entry state, with all balances
unknown. -/
structure TradeRow where
  id : Nat
  altCoinId : String
  cryptoCoinId : String
  selling : Bool
  state : TradeState
  altStartingBalance : Option Rat
  altTradeAmount : Option Rat
  cryptoStartingBalance : Option Rat
  cryptoTradeAmount : Option Rat
  datetime : DateTime
deriving DecidableEq

/-- Relational store: one list of rows per table. -/
structure Store where
  coins : List CoinRow
  pairs : List PairRow
  currentCoins : List CurrentCoinRow
  coinValues : List CoinValueRow
  scoutHistory : List ScoutRow
  trades : List TradeRow
deriving DecidableEq

/-- Observable events of one operation: unit-of-work boundaries plus the
event-relay actions.  `rollbackUnit` is never emitted by the embedded code;
it exists so that the rollback-on-error contract can be stated. -/
inductive Event where
  | openUnit
  | commitUnit
  | rollbackUnit
  | closeUnit
  | notify (table : String)
  | warn
deriving DecidableEq

/-- Result of running a session body: either a normal return carrying the
mutated working store, the relay events emitted inside the unit and the
returned value, or a raised error. -/
inductive BodyResult (α : Type) where
  | ok (st : Store) (evs : List Event) (a : α)
  | raise (evs : List Event)

/-- Outcome of a whole operation: `result = none` models an exception
propagating to the caller, `store` is the durable state afterwards and
`events` the emitted trace. -/
structure SessOutcome (α : Type) where
  result : Option α
  store : Store
  events : List Event

/-- Shallow embedding of `Database.db_session`: open the scoped session,
run the body, and on normal return commit and close.  A raised error
propagates before `session.commit()` is reached, so the durable store is
unchanged and neither a rollback nor a close happens on that path. -/
def db_session {α : Type} (st : Store) (body : Store → BodyResult α) : SessOutcome α :=
  match body st with
  | .ok st' evs a => ⟨some a, st', Event.openUnit :: (evs ++ [Event.commitUnit, Event.closeUnit])⟩
  | .raise evs => ⟨none, st, Event.openUnit :: evs⟩

/-- Table name constants used in relay payloads. -/
def tableCurrentCoin : String := "current_coin_history"

/-- Modelled from the spec plus usage: tablename of the Trade model
(models/trade.py is not under src/). -/
def tableTrade : String := "trade_history"

/-- Shallow embedding of `Database.send_update`: when the gateway session
cannot be established (`_api_session()` returns False after the connect
attempt raises) only a local warning is produced; otherwise one `update`
event is emitted for the entity's table.  The call never raises. -/
def send_update (apiOk : Bool) (table : String) : List Event :=
  if apiOk then [Event.notify table] else [Event.warn]

/-- Lookup of a coin row by primary key (`session.get(Coin, symbol)`). -/
def lookupCoin (st : Store) (sym : String) : Option CoinRow :=
  st.coins.find? (fun c => c.symbol == sym)

/-- Shallow embedding of `Database.get_coin` for a string argument: one
session that loads the row by primary key and detaches it.  When no such
coin exists, `session.expunge(None)` raises, which the embedding records
as an error outcome. -/
def get_coin (st : Store) (sym : String) : SessOutcome CoinRow :=
  db_session st (fun s =>
    match lookupCoin s sym with
    | some c => .ok s [] c
    | none => .raise [])

/-- Shallow embedding of `Database.set_current_coin`: `get_coin` runs in
its own session; the main session merges the coin, appends the timestamped
`CurrentCoin` row, and calls `send_update` on it inside the open unit. -/
def set_current_coin (apiOk : Bool) (st : Store) (sym : String) (now : DateTime) :
    SessOutcome Unit :=
  match get_coin st sym with
  | ⟨none, st1, evs⟩ => ⟨none, st1, evs⟩
  | ⟨some c, st1, evs⟩ =>
    let o := db_session st1 (fun s =>
      .ok { s with currentCoins := s.currentCoins ++ [⟨c.symbol, now⟩] }
        (send_update apiOk tableCurrentCoin) ())
    ⟨o.result, o.store, evs ++ o.events⟩

/-- Accumulator step realising `ORDER BY datetime DESC` followed by
`first()`: keep the chronologically later row, the earlier one on ties. -/
def pickLater (acc : Option CurrentCoinRow) (r : CurrentCoinRow) : Option CurrentCoinRow :=
  match acc with
  | none => some r
  | some b => if b.datetime.ltb r.datetime then some r else some b

/-- Latest `CurrentCoin` row under `ORDER BY datetime DESC` followed by
`first()`. -/
def latestCurrentCoin (l : List CurrentCoinRow) : Option CurrentCoinRow :=
  l.foldl pickLater none

/-- Shallow embedding of `Database.get_current_coin`: `None` when the
table is empty, otherwise the coin row referenced by the most recent
`CurrentCoin` row, detached (detachment is inherent in the pure model;
the store is assumed to satisfy foreign-key integrity). -/
def get_current_coin (st : Store) : Option CoinRow :=
  (latestCurrentCoin st.currentCoins).bind (fun row => lookupCoin st row.coinId)

/-- First session of `Database.set_coins`: every coin whose symbol is not
in the new set is disabled; then, iterating over the requested symbols, a
symbol with an existing row (looked up in the list read at the start of
the session) is re-enabled, and a symbol with no row gets a fresh enabled
`Coin` row appended. -/
def set_coins_updateCoins (symbols : List String) (coins : List CoinRow) : List CoinRow :=
  let afterDisable := coins.map (fun c => if c.symbol ∈ symbols then c else { c with enabled := false })
  symbols.foldl
    (fun cur s =>
      if (coins.find? (fun c => c.symbol == s)).isSome then
        cur.map (fun c => if c.symbol = s then { c with enabled := true } else c)
      else cur ++ [CoinRow.new s])
    afterDisable

/-- Inner loop of the pair-creation pass of `set_coins`: for a fixed
from-coin, walk the enabled coins and add a Pair row for every ordered
pair of distinct coins that has no row yet (the existence query sees the
rows added earlier in the same session).  The second component threads the
autoincrement counter for the stable Pair identity. -/
def addPairsInner (f : String) (ts : List String) (acc : List PairRow × Nat) :
    List PairRow × Nat :=
  ts.foldl
    (fun acc2 t =>
      if f ≠ t then
        if (acc2.1.find? (fun p => p.fromSymbol == f && p.toSymbol == t)).isSome then acc2
        else (acc2.1 ++ [PairRow.new acc2.2 f t], acc2.2 + 1)
      else acc2)
    acc

/-- Outer loop of the pair-creation pass of `set_coins`. -/
def addPairs (syms : List String) (ps : List PairRow) (n : Nat) : List PairRow × Nat :=
  syms.foldl (fun acc f => addPairsInner f syms acc) (ps, n)

/-- Next autoincrement Pair identity. -/
def nextPairId (ps : List PairRow) : Nat := (ps.map (fun p => p.id)).foldl max 0 + 1

/-- Shallow embedding of `Database.set_coins`: the coin pass, then the
pair-creation pass over the enabled coins ordered by symbol.  The third
session of the source only rebuilds the in-memory `RatiosManager` from the
enabled pairs and does not mutate the store, so it has no footprint here;
the `CoinStub` bookkeeping is likewise in-memory only. -/
def set_coins (symbols : List String) (st : Store) : Store :=
  let coins' := set_coins_updateCoins symbols st.coins
  let enabledSyms :=
    ((coins'.filter (fun c => c.enabled)).map (fun c => c.symbol)).mergeSort (fun a b => a ≤ b)
  let pairs' := (addPairs enabledSyms st.pairs (nextPairId st.pairs)).1
  { st with coins := coins', pairs := pairs' }

/-- Symbol list driving the pair-creation pass of `set_coins`: the enabled
coins after the coin pass, ordered by symbol. -/
def enabledSymbolsAfter (symbols : List String) (st : Store) : List String :=
  (((set_coins_updateCoins symbols st.coins).filter (fun c => c.enabled)).map
    (fun c => c.symbol)).mergeSort (fun a b => a ≤ b)

/-- Key-level grouping used by `_datetime_id_query`: the GROUP BY lists
`CoinValue.coin_id`, the `CoinValue` entity itself — which SQLAlchemy
expands to all columns of the `coin_value` table, including the unique
primary key — and the strftime bucket column. -/
def groupKeys {κ : Type} [DecidableEq κ] (k : CoinValueRow → κ) (rows : List CoinValueRow) :
    List (String × CoinValueRow × κ) :=
  (rows.map (fun r => (r.coinId, r, k r))).dedup

/-- Row of a group carrying the maximal datetime: sqlite returns the bare
columns of the row achieving `max(datetime)`. -/
def maxDatetimeRow (rows : List CoinValueRow) : Option CoinValueRow :=
  rows.foldl
    (fun acc r =>
      match acc with
      | none => some r
      | some b => if b.datetime.ltb r.datetime then some r else some b)
    none

/-- Shallow embedding of `_datetime_id_query dt_format` inside
`Database.prune_value_history`: group the samples by (coin_id, every
column of the row, bucket key) and select each group's id.  Because the
grouping key contains the primary key, every row forms its own group, so
the query yields the id of every sample regardless of its granularity. -/
def datetimeIdQuery {κ : Type} [DecidableEq κ] (k : CoinValueRow → κ)
    (rows : List CoinValueRow) : List Nat :=
  (groupKeys k rows).filterMap
    (fun g => (maxDatetimeRow (rows.filter (fun r => (r.coinId, r, k r) = g))).map (fun r => r.id))

/-- Shallow embedding of `_update_query`: set the interval tag of every
sample whose id the datetime query selected. -/
def applyIntervalUpdate (ids : List Nat) (iv : Interval) (rows : List CoinValueRow) :
    List CoinValueRow :=
  rows.map (fun r => if r.id ∈ ids then { r with interval := iv } else r)

/-- Bucket key of strftime "%H" (hour of day only). -/
def keyHour (r : CoinValueRow) : Nat := r.datetime.hour

/-- Bucket key of strftime "%Y-%j" (year and ordinal day). -/
def keyYearDay (r : CoinValueRow) : Nat × Nat := (r.datetime.year, r.datetime.dayOfYear)

/-- Bucket key of strftime "%Y-%W" (year and Monday-first week number). -/
def keyYearWeek (r : CoinValueRow) : Nat × Nat := (r.datetime.year, r.datetime.weekW)

/-- Reclassification step of `prune_value_history`, in the execution order
of the source: the hourly update, then the daily update, then the weekly
update, each one's id query evaluated against the current table. -/
def reclassify (rows : List CoinValueRow) : List CoinValueRow :=
  let r1 := applyIntervalUpdate (datetimeIdQuery keyHour rows) Interval.HOURLY rows
  let r2 := applyIntervalUpdate (datetimeIdQuery keyYearDay r1) Interval.DAILY r1
  applyIntervalUpdate (datetimeIdQuery keyYearWeek r2) Interval.WEEKLY r2

/-- Retention deletes of `prune_value_history`, in source order: MINUTELY
samples older than one day, then HOURLY samples older than one month, then
DAILY samples older than one year; there is no delete for WEEKLY samples.
The source reads `datetime.now()` separately before each delete; the model
uses the single invocation-time clock value for all three. -/
def pruneDeletes (now : DateTime) (rows : List CoinValueRow) : List CoinValueRow :=
  let r1 := rows.filter
    (fun r => !((r.interval == Interval.MINUTELY) && r.datetime.ltb now.subDay))
  let r2 := r1.filter
    (fun r => !((r.interval == Interval.HOURLY) && r.datetime.ltb now.subMonth))
  r2.filter (fun r => !((r.interval == Interval.DAILY) && r.datetime.ltb now.subYear))

/-- Shallow embedding of `Database.prune_value_history`: the three
reclassification updates followed by the three retention deletes, all in
one session (the source commits between the two phases, which is
invisible in the final store). -/
def prune_value_history (now : DateTime) (st : Store) : Store :=
  { st with coinValues := pruneDeletes now (reclassify st.coinValues) }

/-- Scout evaluation record handed to `batch_log_scout` (the `LogScout`
namedtuple). -/
structure LogScout where
  pairId : Nat
  ratioDiff : Rat
  targetRatio : Rat
  coinPrice : Rat
  optionalCoinPrice : Rat
deriving DecidableEq

/-- Process clock: each `datetime.now()` call returns the time of the
current tick and advances the tick, so two separate calls never see the
same value. -/
structure Clock where
  tick : Nat
deriving DecidableEq

/-- Reading the clock. -/
def Clock.now (c : Clock) : DateTime × Clock := (⟨2021, 1, 1, 0, 0, c.tick⟩, ⟨c.tick + 1⟩)

/-- Shallow embedding of `Database.batch_log_scout`: one session, one
`datetime.now()` call, and a single batched insert stamping every record
with that one value.  The `heavy_call` decorator (postpone.py, absent from
src/) only defers execution and is not modelled. -/
def batch_log_scout (c : Clock) (st : Store) (logs : List LogScout) : Store × Clock :=
  let (dt, c') := c.now
  ({ st with
      scoutHistory := st.scoutHistory ++
        logs.map (fun ls =>
          ⟨ls.pairId, ls.ratioDiff, ls.targetRatio, ls.coinPrice, ls.optionalCoinPrice, dt⟩) },
    c')

/-- Modelled from the spec: the ratio-matrix collaborator contract of
§4.2 (ratios.py is not under src/): the dirty-cell set, the stable Pair
identity per cell, the current cell value, and a commit that clears the
dirty set. -/
structure RatiosManager where
  dirty : List (Nat × Nat)
  pairId : Nat → Nat → Nat
  val : Nat → Nat → Rat

/-- Collaborator commit: clears the dirty set, nothing else. -/
def RatiosManager.commitClear (rm : RatiosManager) : RatiosManager := { rm with dirty := [] }

/-- One parameter set of the batched UPDATE: set the ratio of the pair row
with the given identity. -/
def updRatio (ps : List PairRow) (pid : Nat) (v : Rat) : List PairRow :=
  ps.map (fun p => if p.id == pid then { p with ratio := some v } else p)

/-- Executemany semantics of the single batched UPDATE statement: the
parameter sets are applied in order. -/
def updRatioBatch (ps : List PairRow) (params : List (Nat × Rat)) : List PairRow :=
  params.foldl (fun a pr => updRatio a pr.1 pr.2) ps

/-- Ratio column of the pair row with the given identity. -/
def findRatio (ps : List PairRow) (pid : Nat) : Option (Option Rat) :=
  (ps.find? (fun p => p.id == pid)).map (fun p => p.ratio)

/-- Outcome of `commit_ratios`: whether the transaction raised, the durable
store, the collaborator state afterwards, and the event trace. -/
structure CommitOutcome where
  raised : Bool
  store : Store
  rm : RatiosManager
  events : List Event

/-- Shallow embedding of `Database.commit_ratios`: read the dirty set and
return immediately when it is empty (no transaction is opened); otherwise
run the batched UPDATE in one session — `writeOk = false` models the store
raising during the execute — and only after the session has committed call
`commit()` on the collaborator.  On a raise the error propagates and the
collaborator keeps its dirty set. -/
def commit_ratios (writeOk : Bool) (st : Store) (rm : RatiosManager) : CommitOutcome :=
  if rm.dirty.length = 0 then ⟨false, st, rm, []⟩
  else
    let o := db_session st (fun s =>
      if writeOk then
        .ok { s with
              pairs := updRatioBatch s.pairs
                (rm.dirty.map (fun c => (rm.pairId c.1 c.2, rm.val c.1 c.2))) } [] ()
      else .raise [])
    match o.result with
    | some _ => ⟨false, o.store, rm.commitClear, o.events⟩
    | none => ⟨true, o.store, rm, o.events⟩

/-- Replacement semantics of `session.merge` followed by mutation for a
trade row: the persistent row with the handle's identity is replaced (the
merge target), or the merged copy is inserted when no row exists. -/
def putTrade (trades : List TradeRow) (row : TradeRow) : List TradeRow :=
  if trades.any (fun t => t.id == row.id) then
    trades.map (fun t => if t.id == row.id then row else t)
  else trades ++ [row]

/-- Merge of a detached trade handle into a fresh unit: the attached
instance reflects the persistent row (the handle's expired attributes are
not copied over), or the handle itself when no row with that identity
exists. -/
def mergeTrade (trades : List TradeRow) (handle : TradeRow) : TradeRow :=
  match trades.find? (fun t => t.id == handle.id) with
  | some row => row
  | none => handle

/-- Shallow embedding of `Database.start_trade_log` / `TradeLog.__init__`:
one session creating the trade row in the entry state with unknown
balances, flushing it (which assigns the identity), and relaying the
change inside the open unit.  Returns the detached handle. -/
def start_trade_log (apiOk : Bool) (st : Store) (altCoin cryptoCoin : String)
    (selling : Bool) (freshId : Nat) (now : DateTime) : SessOutcome TradeRow :=
  db_session st (fun s =>
    let trade : TradeRow :=
      ⟨freshId, altCoin, cryptoCoin, selling, TradeState.INITIAL, none, none, none, none, now⟩
    .ok { s with trades := s.trades ++ [trade] } (send_update apiOk tableTrade) trade)

/-- Shallow embedding of `TradeLog.set_ordered`: merge the handle into a
fresh unit, record the starting balances and the trade amount, set the
state to ORDERED unconditionally, and relay the change inside the unit. -/
def TradeLog.set_ordered (apiOk : Bool) (st : Store) (handle : TradeRow)
    (altStartingBalance cryptoStartingBalance altTradeAmount : Rat) : SessOutcome TradeRow :=
  db_session st (fun s =>
    let row := mergeTrade s.trades handle
    let row' := { row with
      altStartingBalance := some altStartingBalance
      altTradeAmount := some altTradeAmount
      cryptoStartingBalance := some cryptoStartingBalance
      state := TradeState.ORDERED }
    .ok { s with trades := putTrade s.trades row' } (send_update apiOk tableTrade) row')

/-- Shallow embedding of `TradeLog.set_complete`: merge the handle into a
fresh unit, record the final traded amount, set the state to COMPLETE
unconditionally — the source performs no check of the current state — and
relay the change inside the unit. -/
def TradeLog.set_complete (apiOk : Bool) (st : Store) (handle : TradeRow)
    (cryptoTradeAmount : Rat) : SessOutcome TradeRow :=
  db_session st (fun s =>
    let row := mergeTrade s.trades handle
    let row' := { row with
      cryptoTradeAmount := some cryptoTradeAmount
      state := TradeState.COMPLETE }
    .ok { s with trades := putTrade s.trades row' } (send_update apiOk tableTrade) row')

/-- Number of relay notifications in a trace. -/
def countNotify (evs : List Event) : Nat :=
  evs.countP (fun e => match e with | .notify _ => true | _ => false)

/-- Checks that every relay notification happens while no transactional
unit is open-and-uncommitted, i.e. only after the durability point of its
unit and never inside a transaction. -/
def notifyOutsideUnit (evs : List Event) : Bool :=
  (evs.foldl
    (fun acc e =>
      match e with
      | Event.openUnit => (acc.1, true)
      | Event.commitUnit => (acc.1, false)
      | Event.notify _ => (acc.1 && !acc.2, acc.2)
      | _ => acc)
    (true, false)).1

/-- Number of Pair rows for one ordered symbol pair. -/
def countPair (f t : String) (ps : List PairRow) : Nat :=
  ps.countP (fun p => p.fromSymbol == f && p.toSymbol == t)

/-- Whether the store has an enabled coin row for a symbol. -/
def coinEnabled (st : Store) (s : String) : Bool :=
  st.coins.any (fun c => c.symbol == s && c.enabled)

/-- State of the trade row with a given identity. -/
def tradeState (st : Store) (i : Nat) : Option TradeState :=
  (st.trades.find? (fun t => t.id == i)).map (fun t => t.state)

/-- Symbol fixtures. -/
def symA : String := "AAA"

/-- Second symbol fixture. -/
def symB : String := "BBB"

/-- Bitcoin symbol fixture. -/
def symBTC : String := "BTC"

/-- Ether symbol fixture. -/
def symETH : String := "ETH"

/-- Empty store fixture. -/
def emptyStore : Store := ⟨[], [], [], [], [], []⟩

/-- Invocation-time clock fixture: 2021-06-01 15:00:00. -/
def nowFix : DateTime := ⟨2021, 6, 1, 15, 0, 0⟩

/-- Minutely sample fixture at 2021-06-01 14:mi. -/
def cvFix (i mi : Nat) : CoinValueRow :=
  ⟨i, symBTC, 1, 1, 1, Interval.MINUTELY, ⟨2021, 6, 1, 14, mi, 0⟩⟩

/-- Store with three raw samples of one asset inside one calendar hour. -/
def stSamples : Store := ⟨[⟨symBTC, true⟩], [], [], [cvFix 1 5, cvFix 2 10, cvFix 3 15], [], []⟩

/-- Store with one enabled coin. -/
def stCoin : Store := ⟨[⟨symBTC, true⟩], [], [], [], [], []⟩

/-- Trade fixture still in the entry state. -/
def tradeInitial : TradeRow :=
  ⟨1, symETH, symBTC, false, TradeState.INITIAL, none, none, none, none, nowFix⟩

/-- Store holding only the INITIAL-state trade. -/
def stTradeInitial : Store := ⟨[], [], [], [], [], [tradeInitial]⟩

/-- Trade fixture already in the terminal state. -/
def tradeComplete : TradeRow :=
  ⟨2, symETH, symBTC, false, TradeState.COMPLETE, some 1, some 1, some 1, some 1, nowFix⟩

/-- Store holding only the COMPLETE-state trade. -/
def stTradeComplete : Store := ⟨[], [], [], [], [], [tradeComplete]⟩

/-- Store with the two ordered pair rows for the sync-protocol fixtures. -/
def stPairs : Store :=
  ⟨[], [⟨1, symA, symB, none, true⟩, ⟨2, symB, symA, none, true⟩], [], [], [], []⟩

/-- Ratio-matrix collaborator fixture: two dirty cells mapping to the two
pair identities. -/
def rmFix : RatiosManager :=
  ⟨[(0, 1), (1, 0)], fun i j => 2 * i + j, fun i j => (i + j + 2 : Rat)⟩

/-- Store with two coins and two current-coin rows, the second one more
recent. -/
def ccStore : Store :=
  ⟨[⟨symA, true⟩, ⟨symB, true⟩], [],
    [⟨symA, ⟨2021, 1, 1, 0, 0, 0⟩⟩, ⟨symB, ⟨2021, 2, 1, 0, 0, 0⟩⟩], [], [], []⟩

/-- Old weekly sample fixture (more than five years old at `nowFix`). -/
def cvOldWeekly : CoinValueRow := ⟨7, symBTC, 1, 1, 1, Interval.WEEKLY, ⟨2015, 5, 1, 0, 0, 0⟩⟩

/-- Old raw sample fixture (two months old at `nowFix`). -/
def cvOldRaw : CoinValueRow := ⟨9, symBTC, 1, 1, 1, Interval.MINUTELY, ⟨2021, 4, 1, 0, 0, 0⟩⟩

/-- Store for the retention witness. -/
def stRetention : Store := ⟨[⟨symBTC, true⟩], [], [], [cvOldWeekly], [], []⟩

/-- Scout record fixtures. -/
def scoutLogA : LogScout := ⟨1, 0, 1, 1, 1⟩

/-- Second scout record fixture. -/
def scoutLogB : LogScout := ⟨2, 0, 1, 1, 1⟩

/-- Clock fixture. -/
def clockFix : Clock := ⟨0⟩

/-- C2 counterexample: for a body that raises, `db_session` neither rolls
back nor releases the unit — the trace after the error contains no
rollback and no close (and no commit); the claim's error path is not
implemented. -/
theorem db_session_error_no_rollback_cex :
    (db_session emptyStore ((fun _ => BodyResult.raise []) : Store → BodyResult Unit)).events = [Event.openUnit]
    ∧ Event.rollbackUnit ∉ (db_session emptyStore ((fun _ => BodyResult.raise []) : Store → BodyResult Unit)).events
    ∧ Event.closeUnit ∉ (db_session emptyStore ((fun _ => BodyResult.raise []) : Store → BodyResult Unit)).events := by
  refine ⟨rfl, ?_, ?_⟩ <;> simp [db_session, emptyStore]

/-- C2 (amended): a normal return of the body commits and releases the
unit, with the durable store taken from the body; an error unwinding
through the body propagates before the commit is reached, so the durable
store is unchanged and no commit occurs, but the unit is neither rolled
back nor released. -/
theorem db_session_commit_paths {α : Type} (st : Store) (body : Store → BodyResult α) :
    (∀ st' evs a, body st = .ok st' evs a →
      (db_session st body).result = some a ∧ (db_session st body).store = st'
        ∧ (db_session st body).events
            = Event.openUnit :: (evs ++ [Event.commitUnit, Event.closeUnit]))
    ∧ (∀ evs, body st = .raise evs →
        Event.commitUnit ∉ evs → Event.rollbackUnit ∉ evs → Event.closeUnit ∉ evs →
      (db_session st body).result = none ∧ (db_session st body).store = st
        ∧ Event.commitUnit ∉ (db_session st body).events
        ∧ Event.rollbackUnit ∉ (db_session st body).events
        ∧ Event.closeUnit ∉ (db_session st body).events) := by
  constructor
  · intro st' evs a h
    simp [db_session, h]
  · intro evs h h1 h2 h3
    simp [db_session, h, h1, h2, h3]

/-- C2 witness: the amended obligations at a concrete successful body and
a concrete raising body. -/
theorem db_session_commit_paths_witness :
    ((db_session emptyStore (fun s => BodyResult.ok s [] ())).events
        = [Event.openUnit, Event.commitUnit, Event.closeUnit])
    ∧ (db_session emptyStore ((fun _ => BodyResult.raise [Event.warn]) : Store → BodyResult Unit)).store
        = emptyStore
    ∧ Event.commitUnit
        ∉ (db_session emptyStore ((fun _ => BodyResult.raise [Event.warn]) : Store → BodyResult Unit)).events := by
  have h1 := (db_session_commit_paths emptyStore (fun s => BodyResult.ok s [] ())).1
    emptyStore [] () rfl
  have h2 := (db_session_commit_paths emptyStore
    ((fun _ => BodyResult.raise [Event.warn]) : Store → BodyResult Unit)).2 [Event.warn] rfl
    (by simp) (by simp) (by simp)
  exact ⟨by simpa using h1.2.2, h2.2.1, h2.2.2.1⟩

/-- C3: the complete-transition on a trade still in the INITIAL state does
not raise — it returns normally and silently writes the terminal state;
likewise the order-transition on a trade already COMPLETE returns normally
and silently moves the terminal trade back to ORDERED.  The source
performs no state validation, so the fail-fast contract of the claim is
not implemented. -/
theorem trade_transitions_silently_accepted :
    (TradeLog.set_complete false stTradeInitial tradeInitial 5).result.isSome = true
    ∧ tradeState (TradeLog.set_complete false stTradeInitial tradeInitial 5).store 1
        = some TradeState.COMPLETE
    ∧ (TradeLog.set_ordered false stTradeComplete tradeComplete 1 1 1).result.isSome = true
    ∧ tradeState (TradeLog.set_ordered false stTradeComplete tradeComplete 1 1 1).store 2
        = some TradeState.ORDERED := by
  decide

/-- C4 counterexample: in the asset-switch operation the relay call is made
inside the open transactional unit, before its commit — the trace check
that every notification falls outside an open-and-uncommitted unit fails;
and a successful, non-empty ratio-matrix commit (a durable mutation of the
sync component) emits zero notifications rather than exactly one. -/
theorem notify_inside_transaction_cex :
    notifyOutsideUnit (set_current_coin true stCoin symBTC nowFix).events = false
    ∧ rmFix.dirty ≠ []
    ∧ (commit_ratios true stPairs rmFix).raised = false
    ∧ countNotify (commit_ratios true stPairs rmFix).events = 0 := by
  decide

/-- C4 (amended): the asset switch and each trade-lifecycle mutation
trigger exactly one relay notification, but the call is issued inside the
open transactional unit, before the commit that makes the mutation
durable; the ratio-matrix commit and the retention pass trigger none. -/
theorem notify_placement_amended :
    (∀ st sym now c, lookupCoin st sym = some c →
      (set_current_coin true st sym now).events
        = [Event.openUnit, Event.commitUnit, Event.closeUnit,
           Event.openUnit, Event.notify tableCurrentCoin, Event.commitUnit, Event.closeUnit])
    ∧ (∀ st a cr s i now, (start_trade_log true st a cr s i now).events
        = [Event.openUnit, Event.notify tableTrade, Event.commitUnit, Event.closeUnit])
    ∧ (∀ st h a b c, (TradeLog.set_ordered true st h a b c).events
        = [Event.openUnit, Event.notify tableTrade, Event.commitUnit, Event.closeUnit])
    ∧ (∀ st h a, (TradeLog.set_complete true st h a).events
        = [Event.openUnit, Event.notify tableTrade, Event.commitUnit, Event.closeUnit])
    ∧ (∀ w st rm t, Event.notify t ∉ (commit_ratios w st rm).events) := by
  refine ⟨?_, ?_, ?_, ?_, ?_⟩
  · intro st sym now c h
    simp [set_current_coin, get_coin, db_session, send_update, h]
  · intro st a cr s i now
    simp [start_trade_log, db_session, send_update]
  · intro st h a b c
    simp [TradeLog.set_ordered, db_session, send_update]
  · intro st h a
    simp [TradeLog.set_complete, db_session, send_update]
  · intro w st rm t
    by_cases hd : rm.dirty.length = 0 <;> by_cases hw : w <;>
      simp [commit_ratios, db_session, hd, hw]

/-- C4 witness: the amended trace obligation evaluated at the concrete
asset switch. -/
theorem notify_placement_amended_witness :
    (set_current_coin true stCoin symBTC nowFix).events
      = [Event.openUnit, Event.commitUnit, Event.closeUnit,
         Event.openUnit, Event.notify tableCurrentCoin, Event.commitUnit, Event.closeUnit] :=
  notify_placement_amended.1 stCoin symBTC nowFix ⟨symBTC, true⟩ (by decide)

/-- C5: on three raw samples of one asset inside one calendar hour, the
reclassification pass relabels all three — the GROUP BY lists every column
of the row including the unique primary key, so each sample is its own
group and every id is selected by each of the three update queries; after
the pass every sample carries the WEEKLY tag (the last update executed)
instead of exactly one becoming hourly while the others stay raw. -/
theorem prune_reclassifies_every_sample :
    (reclassify stSamples.coinValues).all (fun r => r.interval == Interval.WEEKLY) = true
    ∧ (prune_value_history nowFix stSamples).coinValues
        = [{ cvFix 1 5 with interval := Interval.WEEKLY },
           { cvFix 2 10 with interval := Interval.WEEKLY },
           { cvFix 3 15 with interval := Interval.WEEKLY }] := by
  decide

/-- C8: when the gateway client cannot connect, the asset switch still
persists its row and returns normally; the relay failure surfaces only as
a local warning event and never as an error, and no notification is
emitted. -/
theorem set_current_coin_relay_degraded (st : Store) (sym : String) (now : DateTime)
    (c : CoinRow) (h : lookupCoin st sym = some c) :
    (set_current_coin false st sym now).result = some ()
    ∧ (set_current_coin false st sym now).store
        = { st with currentCoins := st.currentCoins ++ [⟨c.symbol, now⟩] }
    ∧ Event.warn ∈ (set_current_coin false st sym now).events
    ∧ (∀ t, Event.notify t ∉ (set_current_coin false st sym now).events) := by
  simp [set_current_coin, get_coin, db_session, send_update, h]

/-- C8 witness: the degraded-relay persistence obligation at a concrete
store. -/
theorem set_current_coin_relay_degraded_witness :
    (set_current_coin false stCoin symBTC nowFix).result = some ()
    ∧ Event.warn ∈ (set_current_coin false stCoin symBTC nowFix).events := by
  have h := set_current_coin_relay_degraded stCoin symBTC nowFix ⟨symBTC, true⟩ (by decide)
  exact ⟨h.1, h.2.2.1⟩

/-- Folding `pickLater` from a seed row yields a row of the traversed list
or the seed, with maximal timestamp key among all of them. -/
theorem pickLater_foldl_spec (l : List CurrentCoinRow) (b : CurrentCoinRow) :
    ∃ r, l.foldl pickLater (some b) = some r ∧ (r = b ∨ r ∈ l)
      ∧ b.datetime.key ≤ r.datetime.key ∧ ∀ x ∈ l, x.datetime.key ≤ r.datetime.key := by
  induction l generalizing b with
  | nil => exact ⟨b, rfl, Or.inl rfl, le_refl _, by simp⟩
  | cons x xs ih =>
    by_cases hbx : b.datetime.ltb x.datetime = true
    · obtain ⟨r, hr, hmem, hxr, hall⟩ := ih x
      have hbxk : b.datetime.key < x.datetime.key := by
        simpa [DateTime.ltb] using hbx
      refine ⟨r, ?_, ?_, le_of_lt (lt_of_lt_of_le hbxk hxr), ?_⟩
      · simpa [pickLater, hbx] using hr
      · rcases hmem with h | h
        · exact Or.inr (by simp [h])
        · exact Or.inr (by simp [h])
      · intro y hy
        rcases List.mem_cons.mp hy with h | h
        · exact h ▸ hxr
        · exact hall y h
    · obtain ⟨r, hr, hmem, hbr, hall⟩ := ih b
      have hxbk : x.datetime.key ≤ b.datetime.key := by
        have h' : ¬b.datetime.key < x.datetime.key := by simpa [DateTime.ltb] using hbx
        omega
      refine ⟨r, ?_, ?_, hbr, ?_⟩
      · simpa [pickLater, hbx] using hr
      · rcases hmem with h | h
        · exact Or.inl h
        · exact Or.inr (by simp [h])
      · intro y hy
        rcases List.mem_cons.mp hy with h | h
        · exact h ▸ le_trans hxbk hbr
        · exact hall y h

/-- On a non-empty table `latestCurrentCoin` returns a member row whose
timestamp key dominates every row. -/
theorem latestCurrentCoin_spec (l : List CurrentCoinRow) (h : l ≠ []) :
    ∃ r ∈ l, (∀ x ∈ l, x.datetime.key ≤ r.datetime.key) ∧ latestCurrentCoin l = some r := by
  match l with
  | [] => exact absurd rfl h
  | x :: xs =>
    obtain ⟨r, hr, hmem, hxr, hall⟩ := pickLater_foldl_spec xs x
    refine ⟨r, ?_, ?_, ?_⟩
    · rcases hmem with h' | h'
      · simp [h']
      · simp [h']
    · intro y hy
      rcases List.mem_cons.mp hy with h' | h'
      · exact h' ▸ hxr
      · exact hall y h'
    · simpa [latestCurrentCoin, pickLater] using hr

/-- C9: `get_current_coin` returns `None` on an empty current-coin table;
otherwise it returns the coin row referenced by a current-coin row whose
timestamp dominates every row of the table (the detachment of the returned
copy is inherent in the pure model). -/
theorem get_current_coin_spec (st : Store) :
    (st.currentCoins = [] → get_current_coin st = none)
    ∧ (st.currentCoins ≠ [] → ∃ row ∈ st.currentCoins,
        (∀ x ∈ st.currentCoins, x.datetime.key ≤ row.datetime.key)
        ∧ get_current_coin st = lookupCoin st row.coinId) := by
  constructor
  · intro h
    simp [get_current_coin, latestCurrentCoin, h]
  · intro h
    obtain ⟨r, hrm, hall, hlat⟩ := latestCurrentCoin_spec st.currentCoins h
    exact ⟨r, hrm, hall, by simp [get_current_coin, hlat]⟩

/-- C9 witness: the accessor obligation at a concrete two-row table, whose
most recent row points at the second coin. -/
theorem get_current_coin_spec_witness :
    (∃ row ∈ ccStore.currentCoins,
      (∀ x ∈ ccStore.currentCoins, x.datetime.key ≤ row.datetime.key)
      ∧ get_current_coin ccStore = lookupCoin ccStore row.coinId)
    ∧ get_current_coin ccStore = some ⟨symB, true⟩ :=
  ⟨(get_current_coin_spec ccStore).2 (by decide), by decide⟩

/-- C10: every `ScoutHistory` row inserted by one `batch_log_scout` call
carries the identical timestamp: the clock is read once at call time and
the single batched insert stamps each record with that one value. -/
theorem batch_log_scout_shared_timestamp (c : Clock) (st : Store) (logs : List LogScout)
    (r1 r2 : ScoutRow)
    (h1 : r1 ∈ (batch_log_scout c st logs).1.scoutHistory.drop st.scoutHistory.length)
    (h2 : r2 ∈ (batch_log_scout c st logs).1.scoutHistory.drop st.scoutHistory.length) :
    r1.datetime = r2.datetime := by
  have hdrop : (batch_log_scout c st logs).1.scoutHistory.drop st.scoutHistory.length
      = logs.map (fun ls =>
          (⟨ls.pairId, ls.ratioDiff, ls.targetRatio, ls.coinPrice, ls.optionalCoinPrice,
            (c.now).1⟩ : ScoutRow)) := by
    simp [batch_log_scout, List.drop_left]
  rw [hdrop] at h1 h2
  obtain ⟨l1, _, hl1⟩ := List.mem_map.mp h1
  obtain ⟨l2, _, hl2⟩ := List.mem_map.mp h2
  rw [← hl1, ← hl2]

/-- C10 witness: two records of one concrete batch carry equal stamps. -/
theorem batch_log_scout_shared_timestamp_witness :
    (⟨1, 0, 1, 1, 1, ⟨2021, 1, 1, 0, 0, 0⟩⟩ : ScoutRow).datetime
      = (⟨2, 0, 1, 1, 1, ⟨2021, 1, 1, 0, 0, 0⟩⟩ : ScoutRow).datetime :=
  batch_log_scout_shared_timestamp clockFix emptyStore [scoutLogA, scoutLogB] _ _
    (by decide) (by decide)

/-- Membership characterisation of the retention deletes: a sample survives
them exactly when it is not a raw sample older than one day, not an hourly
sample older than one month, and not a daily sample older than one year. -/
theorem mem_pruneDeletes (now : DateTime) (rows : List CoinValueRow) (r : CoinValueRow) :
    r ∈ pruneDeletes now rows ↔ r ∈ rows
      ∧ ¬(r.interval = Interval.MINUTELY ∧ r.datetime.key < now.subDay.key)
      ∧ ¬(r.interval = Interval.HOURLY ∧ r.datetime.key < now.subMonth.key)
      ∧ ¬(r.interval = Interval.DAILY ∧ r.datetime.key < now.subYear.key) := by
  unfold pruneDeletes
  simp only [List.mem_filter, Bool.not_eq_true', Bool.and_eq_false_iff, beq_eq_false_iff_ne,
    DateTime.ltb, decide_eq_false_iff_not, not_and_or, and_assoc]

/-- C6: the pruning phase of `prune_value_history`, applied to the
reclassified table, deletes exactly the raw samples older than one day,
the hourly samples older than one month and the daily samples older than
one year, all relative to the invocation-time clock; weekly samples are
never deleted, whatever their age. -/
theorem prune_retention_windows (now : DateTime) (st : Store) (rows : List CoinValueRow) :
    ((prune_value_history now st).coinValues = pruneDeletes now (reclassify st.coinValues))
    ∧ (∀ r, r ∈ pruneDeletes now rows ↔ r ∈ rows
        ∧ ¬(r.interval = Interval.MINUTELY ∧ r.datetime.key < now.subDay.key)
        ∧ ¬(r.interval = Interval.HOURLY ∧ r.datetime.key < now.subMonth.key)
        ∧ ¬(r.interval = Interval.DAILY ∧ r.datetime.key < now.subYear.key))
    ∧ (∀ r, r ∈ reclassify st.coinValues → r.interval = Interval.WEEKLY →
        r ∈ (prune_value_history now st).coinValues) := by
  refine ⟨rfl, fun r => mem_pruneDeletes now rows r, fun r hmem hweek => ?_⟩
  have h := (mem_pruneDeletes now (reclassify st.coinValues) r).mpr
    ⟨hmem, by simp [hweek], by simp [hweek], by simp [hweek]⟩
  simpa [prune_value_history] using h

/-- Unfolding lemma for the batched update. -/
theorem updRatioBatch_cons (ps : List PairRow) (pr : Nat × Rat) (rest : List (Nat × Rat)) :
    updRatioBatch ps (pr :: rest) = updRatioBatch (updRatio ps pr.1 pr.2) rest := rfl

/-- Updating one pair identity leaves the id column unchanged. -/
theorem updRatio_ids (ps : List PairRow) (pid : Nat) (v : Rat) :
    (updRatio ps pid v).map (fun p => p.id) = ps.map (fun p => p.id) := by
  induction ps with
  | nil => rfl
  | cons p ps ih =>
    simp only [updRatio, List.map_cons] at ih ⊢
    rw [ih]
    congr 1
    by_cases h : (p.id == pid) = true <;> simp [h]

/-- The batched update leaves the id column unchanged. -/
theorem updRatioBatch_ids (params : List (Nat × Rat)) (ps : List PairRow) :
    (updRatioBatch ps params).map (fun p => p.id) = ps.map (fun p => p.id) := by
  induction params generalizing ps with
  | nil => rfl
  | cons pr rest ih =>
    rw [updRatioBatch_cons, ih, updRatio_ids]

/-- Unfolding lemma for a single update over a cons cell. -/
theorem updRatio_cons (p : PairRow) (ps : List PairRow) (pid : Nat) (v : Rat) :
    updRatio (p :: ps) pid v
      = (if p.id == pid then { p with ratio := some v } else p) :: updRatio ps pid v := rfl

/-- Unfolding lemma for the ratio lookup over a cons cell. -/
theorem findRatio_cons (p : PairRow) (ps : List PairRow) (pid : Nat) :
    findRatio (p :: ps) pid
      = if p.id == pid then some p.ratio else findRatio ps pid := by
  by_cases h : (p.id == pid) = true
  · simp [findRatio, List.find?_cons_of_pos, h]
  · simp [findRatio, List.find?_cons_of_neg, h]

/-- Ratio of the updated identity after a single update. -/
theorem findRatio_updRatio_self (ps : List PairRow) (pid : Nat) (v : Rat)
    (h : pid ∈ ps.map (fun p => p.id)) :
    findRatio (updRatio ps pid v) pid = some (some v) := by
  induction ps with
  | nil => simp at h
  | cons p ps ih =>
    rw [updRatio_cons]
    by_cases hp : (p.id == pid) = true
    · rw [if_pos hp, findRatio_cons, if_pos hp]
    · have hne : p.id ≠ pid := by simpa using hp
      have hcases : pid = p.id ∨ ∃ a ∈ ps, a.id = pid := by simpa using h
      have hmem : pid ∈ ps.map (fun p => p.id) := by
        rcases hcases with h' | ⟨a, ha, haid⟩
        · exact absurd h'.symm hne
        · exact List.mem_map.mpr ⟨a, ha, haid⟩
      rw [if_neg hp, findRatio_cons, if_neg hp]
      exact ih hmem

/-- Ratio of a different identity is untouched by a single update. -/
theorem findRatio_updRatio_ne (ps : List PairRow) (pid q : Nat) (v : Rat) (h : q ≠ pid) :
    findRatio (updRatio ps pid v) q = findRatio ps q := by
  induction ps with
  | nil => rfl
  | cons p ps ih =>
    rw [updRatio_cons, findRatio_cons]
    by_cases hp : (p.id == pid) = true
    · have h1 : p.id = pid := by simpa using hp
      have hpq : ¬((p.id == q) = true) := by
        simp only [beq_iff_eq, h1]
        exact fun hh => h hh.symm
      rw [if_pos hp, findRatio_cons, if_neg hpq, if_neg hpq]
      exact ih
    · by_cases hq : (p.id == q) = true
      · rw [if_neg hp, findRatio_cons, if_pos hq, if_pos hq]
      · rw [if_neg hp, findRatio_cons, if_neg hq, if_neg hq]
        exact ih

/-- Identities outside the parameter list keep their ratio across the
batched update. -/
theorem findRatio_updRatioBatch_notMem (params : List (Nat × Rat)) (ps : List PairRow)
    (pid : Nat) (h : pid ∉ params.map Prod.fst) :
    findRatio (updRatioBatch ps params) pid = findRatio ps pid := by
  induction params generalizing ps with
  | nil => rfl
  | cons pr rest ih =>
    have h1 : pid ≠ pr.1 := fun he => h (by simp [he])
    have h2 : pid ∉ rest.map Prod.fst := fun hh => h (by simp [hh])
    rw [updRatioBatch_cons, ih _ h2, findRatio_updRatio_ne _ _ _ _ h1]

/-- Under pairwise-distinct target identities, the batched update writes
each parameter's ratio at its identity. -/
theorem findRatio_updRatioBatch_mem (params : List (Nat × Rat)) (ps : List PairRow)
    (pid : Nat) (v : Rat) (hnd : (params.map Prod.fst).Nodup) (hin : (pid, v) ∈ params)
    (hid : pid ∈ ps.map (fun p => p.id)) :
    findRatio (updRatioBatch ps params) pid = some (some v) := by
  induction params generalizing ps with
  | nil => simp at hin
  | cons pr rest ih =>
    have hnd2 : pr.1 ∉ rest.map Prod.fst ∧ (rest.map Prod.fst).Nodup := by
      rw [List.map_cons] at hnd
      exact List.nodup_cons.mp hnd
    rw [updRatioBatch_cons]
    rcases List.mem_cons.mp hin with he | hm
    · have he' : pr = (pid, v) := he.symm
      subst he'
      rw [findRatio_updRatioBatch_notMem rest _ pid hnd2.1]
      exact findRatio_updRatio_self ps pid v hid
    · have hpidmem : pid ∈ rest.map Prod.fst := List.mem_map.mpr ⟨(pid, v), hm, rfl⟩
      refine ih _ hnd2.2 hm ?_
      rw [updRatio_ids]
      exact hid

/-- C1: for every dirty-cell set reported by the collaborator whose cells
map to pairwise-distinct existing pair identities, a successful
`commit_ratios` persists each cell's current ratio under its identity and
clears the collaborator's dirty set; when the batched update raises, the
error propagates, the store is unchanged and the collaborator — dirty set
included — is left intact for the retry. -/
theorem commit_ratios_atomic (st : Store) (rm : RatiosManager)
    (hnd : (rm.dirty.map (fun c => rm.pairId c.1 c.2)).Nodup)
    (hmem : ∀ c ∈ rm.dirty, rm.pairId c.1 c.2 ∈ st.pairs.map (fun p => p.id)) :
    ((commit_ratios true st rm).raised = false
      ∧ (commit_ratios true st rm).rm.dirty = []
      ∧ ∀ c ∈ rm.dirty,
          findRatio (commit_ratios true st rm).store.pairs (rm.pairId c.1 c.2)
            = some (some (rm.val c.1 c.2)))
    ∧ (rm.dirty ≠ [] → (commit_ratios false st rm).raised = true)
    ∧ (commit_ratios false st rm).rm = rm
    ∧ (commit_ratios false st rm).store = st := by
  by_cases hd : rm.dirty.length = 0
  · have hde : rm.dirty = [] := List.length_eq_zero.mp hd
    refine ⟨⟨?_, ?_, ?_⟩, ?_, ?_, ?_⟩ <;> simp [commit_ratios, hd, hde]
  · have hde : rm.dirty ≠ [] := fun h => hd (by simp [h])
    refine ⟨⟨?_, ?_, ?_⟩, ?_, ?_, ?_⟩
    · simp [commit_ratios, hd, db_session]
    · simp [commit_ratios, hd, db_session, RatiosManager.commitClear]
    · intro c hc
      have hstore : (commit_ratios true st rm).store.pairs
          = updRatioBatch st.pairs
              (rm.dirty.map (fun c => (rm.pairId c.1 c.2, rm.val c.1 c.2))) := by
        simp [commit_ratios, hd, db_session]
      rw [hstore]
      refine findRatio_updRatioBatch_mem _ _ _ _ ?_ ?_ (hmem c hc)
      · simpa [List.map_map, Function.comp] using hnd
      · exact List.mem_map.mpr ⟨c, hc, rfl⟩
    · intro _
      simp [commit_ratios, hd, db_session]
    · simp [commit_ratios, hd, db_session]
    · simp [commit_ratios, hd, db_session]

/-- C1 witness: the sync obligations at a concrete store with two pair
rows and a collaborator holding two dirty cells. -/
theorem commit_ratios_atomic_witness :
    findRatio (commit_ratios true stPairs rmFix).store.pairs 1 = some (some 3)
    ∧ (commit_ratios true stPairs rmFix).rm.dirty = []
    ∧ (commit_ratios false stPairs rmFix).rm.dirty = [(0, 1), (1, 0)]
    ∧ (commit_ratios false stPairs rmFix).raised = true := by
  have h := commit_ratios_atomic stPairs rmFix (by decide) (by decide)
  have h3 := h.1.2.2 (0, 1) (by decide)
  have hid : rmFix.pairId 0 1 = 1 := by decide
  have hval : rmFix.val 0 1 = 3 := by norm_num [rmFix]
  rw [hid, hval] at h3
  refine ⟨h3, h.1.2.1, ?_, h.2.1 (by decide)⟩
  rw [h.2.2.1]
  rfl

/-- Pair-count over an append. -/
theorem countPair_append (f t : String) (l1 l2 : List PairRow) :
    countPair f t (l1 ++ l2) = countPair f t l1 + countPair f t l2 := by
  simp [countPair, List.countP_append]

/-- Pair-count of a freshly created pair row. -/
theorem countPair_new (g t' f t : String) (i : Nat) :
    countPair g t' [PairRow.new i f t] = if g = f ∧ t' = t then 1 else 0 := by
  simp only [countPair, PairRow.new, List.countP_cons, List.countP_nil, Nat.zero_add,
    Bool.and_eq_true, beq_iff_eq]
  exact if_congr (and_congr eq_comm eq_comm) rfl rfl

/-- Found-pair check of the existence query agrees with a positive pair
count. -/
theorem pairFound_iff_countPair (f t : String) (ps : List PairRow) :
    ((ps.find? (fun p => p.fromSymbol == f && p.toSymbol == t)).isSome = true)
      ↔ countPair f t ps ≠ 0 := by
  rw [List.find?_isSome]
  rw [countPair, ← Nat.pos_iff_ne_zero, List.countP_pos_iff]

/-- Unfolding lemma for the inner pair-creation loop on the empty list. -/
theorem addPairsInner_nil (f : String) (acc : List PairRow × Nat) :
    addPairsInner f [] acc = acc := rfl

/-- Unfolding lemma for the inner pair-creation loop on a cons cell. -/
theorem addPairsInner_cons (f t0 : String) (rest : List String) (acc : List PairRow × Nat) :
    addPairsInner f (t0 :: rest) acc
      = addPairsInner f rest
          (if f ≠ t0 then
            if (acc.1.find? (fun p => p.fromSymbol == f && p.toSymbol == t0)).isSome then acc
            else (acc.1 ++ [PairRow.new acc.2 f t0], acc.2 + 1)
          else acc) := rfl

/-- Count formula for the inner pair-creation loop: for a fixed from-coin
`f`, the loop creates the ordered pair (f, t) exactly when `t` is a
distinct traversed coin and no such pair existed, and touches no other
count. -/
theorem countPair_addPairsInner (f : String) (ts : List String) (acc : List PairRow × Nat)
    (g t' : String) :
    countPair g t' (addPairsInner f ts acc).1 =
      if g = f ∧ t' ∈ ts ∧ t' ≠ f ∧ countPair g t' acc.1 = 0 then 1
      else countPair g t' acc.1 := by
  induction ts generalizing acc with
  | nil => simp [addPairsInner_nil]
  | cons t0 rest ih =>
    rw [addPairsInner_cons]
    by_cases hft : f ≠ t0
    · rw [if_pos hft]
      by_cases hfound :
          ((acc.1.find? (fun p => p.fromSymbol == f && p.toSymbol == t0)).isSome = true)
      · rw [if_pos hfound, ih]
        have hc0 : countPair f t0 acc.1 ≠ 0 := (pairFound_iff_countPair f t0 acc.1).mp hfound
        by_cases hg : g = f
        · subst hg
          by_cases ht : t' = t0
          · subst ht
            simp [hc0, List.mem_cons]
          · simp [List.mem_cons, ht]
        · simp [hg]
      · rw [if_neg hfound, ih]
        have hc0 : countPair f t0 acc.1 = 0 := by
          by_contra hcc
          exact hfound ((pairFound_iff_countPair f t0 acc.1).mpr hcc)
        have hcntP : countPair g t' (acc.1 ++ [PairRow.new acc.2 f t0])
            = countPair g t' acc.1 + (if g = f ∧ t' = t0 then 1 else 0) := by
          rw [countPair_append, countPair_new]
        by_cases hg : g = f
        · subst hg
          by_cases ht : t' = t0
          · subst ht
            simp [hcntP, hc0, List.mem_cons, Ne.symm hft]
          · simp [hcntP, ht, List.mem_cons]
        · simp [hcntP, hg]
    · rw [if_neg hft]
      have hf : f = t0 := not_not.mp hft
      rw [ih]
      by_cases hg : g = f
      · by_cases ht : t' = t0
        · have hne : ¬(t' ≠ f) := by
            rw [ht, ← hf]
            exact not_not_intro rfl
          simp [hne]
        · simp [List.mem_cons, ht]
      · simp [hg]

/-- Count formula for the whole pair-creation pass. -/
theorem countPair_addPairsOuter (fs syms : List String) (acc : List PairRow × Nat)
    (g t' : String) :
    countPair g t' (fs.foldl (fun a f => addPairsInner f syms a) acc).1 =
      if g ∈ fs ∧ t' ∈ syms ∧ t' ≠ g ∧ countPair g t' acc.1 = 0 then 1
      else countPair g t' acc.1 := by
  induction fs generalizing acc with
  | nil => simp
  | cons f0 rest ih =>
    rw [List.foldl_cons, ih, countPair_addPairsInner]
    by_cases hg : g = f0
    · subst hg
      by_cases ht : t' ∈ syms <;> by_cases htg : t' ≠ g <;>
        by_cases hcnt : countPair g t' acc.1 = 0 <;>
          simp [ht, htg, hcnt, List.mem_cons]
    · simp [hg, List.mem_cons]

/-- Count formula for `addPairs`. -/
theorem countPair_addPairs (syms : List String) (ps : List PairRow) (n : Nat)
    (g t' : String) :
    countPair g t' (addPairs syms ps n).1 =
      if g ∈ syms ∧ t' ∈ syms ∧ t' ≠ g ∧ countPair g t' ps = 0 then 1
      else countPair g t' ps :=
  countPair_addPairsOuter syms syms (ps, n) g t'

/-- Enabled coins of the store after `set_coins` are exactly the members of
the symbol list driving the pair pass. -/
theorem coinEnabled_mem_enabledSymbolsAfter (symbols : List String) (st : Store) (s : String)
    (h : coinEnabled (set_coins symbols st) s = true) :
    s ∈ enabledSymbolsAfter symbols st := by
  obtain ⟨c, hc, hcp⟩ := List.any_eq_true.mp h
  have h1 : c.symbol = s ∧ c.enabled = true := by simpa using hcp
  have hc' : c ∈ set_coins_updateCoins symbols st.coins := hc
  have : s ∈ ((set_coins_updateCoins symbols st.coins).filter (fun c => c.enabled)).map
      (fun c => c.symbol) :=
    List.mem_map.mpr ⟨c, List.mem_filter.mpr ⟨hc', h1.2⟩, h1.1⟩
  simpa [enabledSymbolsAfter, List.mem_mergeSort] using this

/-- C7: when the store holds at most one pair row per ordered symbol pair,
then after `set_coins` any two distinct enabled assets A and B have exactly
one pair row in each direction, and every ordered pair still has at most
one row — in particular re-running the operation with the same symbol set
creates no duplicate pair rows. -/
theorem set_coins_pairs (symbols : List String) (st : Store) (A B : String)
    (hle : ∀ f t, countPair f t st.pairs ≤ 1)
    (hA : coinEnabled (set_coins symbols st) A = true)
    (hB : coinEnabled (set_coins symbols st) B = true)
    (hAB : A ≠ B) :
    countPair A B (set_coins symbols st).pairs = 1
    ∧ countPair B A (set_coins symbols st).pairs = 1
    ∧ ∀ f t, countPair f t (set_coins symbols st).pairs ≤ 1 := by
  have hpairs : (set_coins symbols st).pairs
      = (addPairs (enabledSymbolsAfter symbols st) st.pairs (nextPairId st.pairs)).1 := rfl
  have hAin := coinEnabled_mem_enabledSymbolsAfter symbols st A hA
  have hBin := coinEnabled_mem_enabledSymbolsAfter symbols st B hB
  refine ⟨?_, ?_, ?_⟩
  · rw [hpairs, countPair_addPairs]
    by_cases hz : countPair A B st.pairs = 0
    · rw [if_pos ⟨hAin, hBin, fun h => hAB h.symm, hz⟩]
    · rw [if_neg (fun hc => hz hc.2.2.2)]
      have := hle A B
      omega
  · rw [hpairs, countPair_addPairs]
    by_cases hz : countPair B A st.pairs = 0
    · rw [if_pos ⟨hBin, hAin, hAB, hz⟩]
    · rw [if_neg (fun hc => hz hc.2.2.2)]
      have := hle B A
      omega
  · intro f t
    rw [hpairs, countPair_addPairs]
    by_cases hc : f ∈ enabledSymbolsAfter symbols st ∧ t ∈ enabledSymbolsAfter symbols st
        ∧ t ≠ f ∧ countPair f t st.pairs = 0
    · rw [if_pos hc]
    · rw [if_neg hc]
      exact hle f t

/-- C7 witness: the pair obligations after setting two symbols on the
empty store. -/
theorem set_coins_pairs_witness :
    countPair symA symB (set_coins [symA, symB] emptyStore).pairs = 1
    ∧ countPair symB symA (set_coins [symA, symB] emptyStore).pairs = 1 := by
  have h := set_coins_pairs [symA, symB] emptyStore symA symB
    (fun f t => by simp [countPair, emptyStore])
    (by decide) (by decide) (by decide)
  exact ⟨h.1, h.2.1⟩

/-- C6 witness: at a concrete store, an over-five-years-old weekly sample
survives the pass, and a concrete raw sample older than one day is removed
by the deletes. -/
theorem prune_retention_windows_witness :
    cvOldWeekly ∈ (prune_value_history nowFix stRetention).coinValues
    ∧ cvOldRaw ∉ pruneDeletes nowFix [cvOldRaw] := by
  constructor
  · exact (prune_retention_windows nowFix stRetention []).2.2 cvOldWeekly (by decide) (by decide)
  · intro hmem
    have h := ((prune_retention_windows nowFix stRetention [cvOldRaw]).2.1 cvOldRaw).mp hmem
    exact h.2.1 (by decide)

end CryptoDB
